import Mathlib

/-!
Verification development for the `docker-model-runner-with-golang` repository.

Part 1 embeds the in-memory vector store (`rag/rag.go`, `rag/cosine-similarity.go`):
`VectorRecord`, `MemoryVectorStore` (modelled as an association list standing for the
Go map together with one concrete iteration order of a run), `Save`, `GetAll`,
`SearchSimilarities`, `SearchTopNSimilarities`, `getTopNVectorRecords`, `dotProduct`
and `CosineSimilarity`.  Go `float64` values are modelled as real numbers, Go `int`
as `Int`, and a Go runtime panic (out-of-range slice index, out-of-range slice
bound) as `Option.none`.

Part 2 embeds the tool-call loop of `17-use-mcp-toolkit-with-tools-chain/main.go`:
the `DetectToolThenCallIt` closure and the bounded driver loop of `main`, with the
two external capabilities (chat completion and MCP tool execution) and the JSON
argument parser (`encoding/json.Unmarshal`) as abstract parameters.
-/

/-- Embeds the Go struct `VectorRecord` of `rag/rag.go`: `Id`, `Prompt`,
`Embedding []float64` and the transient `CosineSimilarity` score field. -/
structure VectorRecord where
  Id : String
  Prompt : String
  Embedding : List ℝ
  CosineSimilarity : ℝ

/-- The `Records map[string]VectorRecord` field of `MemoryVectorStore`, modelled as
an association list: one entry per key, and the list order stands for the
(unspecified) iteration order of the Go map during one run. -/
abbrev Store := List (String × VectorRecord)

/-- Go map assignment `m[k] = v`: replace the entry at `k` if present, otherwise
add a new entry. -/
def mapInsert : Store → String → VectorRecord → Store
  | [], k, v => [(k, v)]
  | (k', v') :: rest, k, v =>
    if k' = k then (k, v) :: rest else (k', v') :: mapInsert rest k v

/-- Go map read `m[k]` (presence view). -/
def mapFind : Store → String → Option VectorRecord
  | [], _ => none
  | (k', v') :: rest, k => if k' = k then some v' else mapFind rest k

/-- The summation loop body of `dotProduct` in `rag/cosine-similarity.go`:
`sum := 0.0; for i := range v1 { sum += v1[i] * v2[i] }`.  Indices are the
indices of `v1`; in-bounds accesses are the `getD` values. -/
noncomputable def dotProductVal (v1 v2 : List ℝ) : ℝ :=
  (List.range v1.length).foldl (fun sum i => sum + v1.getD i 0 * v2.getD i 0) 0

/-- Embeds `dotProduct(v1, v2)` of `rag/cosine-similarity.go`.  The Go loop indexes
`v2` with every index of `v1`, so when `v2` is shorter the program panics with an
out-of-range index: that panic is modelled as `none`. -/
noncomputable def dotProduct (v1 v2 : List ℝ) : Option ℝ :=
  if v1.length ≤ v2.length then some (dotProductVal v1 v2) else none

/-- Embeds `CosineSimilarity(v1, v2)` of `rag/cosine-similarity.go`: the dot
product is computed first (panic propagates as `none`), then the two norms; if
`norm1 <= 0.0 || norm2 <= 0.0` the function returns `0.0`, otherwise
`product / (norm1 * norm2)`. -/
noncomputable def CosineSimilarity (v1 v2 : List ℝ) : Option ℝ :=
  (dotProduct v1 v2).bind fun product =>
  (dotProduct v1 v1).bind fun d1 =>
  (dotProduct v2 v2).bind fun d2 =>
    let norm1 := Real.sqrt d1
    let norm2 := Real.sqrt d2
    if norm1 ≤ 0 ∨ norm2 ≤ 0 then some 0 else some (product / (norm1 * norm2))

/-- Embeds `MemoryVectorStore.Save` of `rag/rag.go`.  `uuid.New().String()` is an
external library call; the identifier it would generate for this invocation is
passed explicitly as `newId`.  Returns the Go result pair `(VectorRecord, error)`
(the error is always `nil`, i.e. `none`) together with the updated store. -/
def Save (newId : String) (mvs : Store) (vectorRecord : VectorRecord) :
    (VectorRecord × Option String) × Store :=
  let r := if vectorRecord.Id = "" then { vectorRecord with Id := newId } else vectorRecord
  ((r, none), mapInsert mvs r.Id r)

/-- Embeds `MemoryVectorStore.GetAll` of `rag/rag.go`: all stored records in
iteration order, and a `nil` error. -/
def GetAll (mvs : Store) : List VectorRecord × Option String :=
  (mvs.map Prod.snd, none)

/-- The record-collection loop of `SearchSimilarities`: for each stored record
compute the cosine similarity against the query embedding (a panic in
`CosineSimilarity` aborts the whole call: `none`), and append a copy with the
`CosineSimilarity` field set whenever `distance >= limit`. -/
noncomputable def searchAux (q : VectorRecord) (limit : ℝ) : Store → Option (List VectorRecord)
  | [] => some []
  | (_, v) :: rest =>
    (CosineSimilarity q.Embedding v.Embedding).bind fun distance =>
      if limit ≤ distance then
        (searchAux q limit rest).map fun rs => { v with CosineSimilarity := distance } :: rs
      else
        searchAux q limit rest

/-- Embeds `MemoryVectorStore.SearchSimilarities` of `rag/rag.go`: the collected
records and a `nil` error; `none` models a runtime panic inside the loop. -/
noncomputable def SearchSimilarities (mvs : Store) (q : VectorRecord) (limit : ℝ) :
    Option (List VectorRecord × Option String) :=
  (searchAux q limit mvs).map fun records => (records, none)

/-- The comparison used by the `sort.Slice` call in `getTopNVectorRecords`
(`records[i].CosineSimilarity > records[j].CosineSimilarity`), stated as the
non-strict order it sorts into: earlier elements have scores at least as large. -/
def byScoreDesc (a b : VectorRecord) : Prop :=
  b.CosineSimilarity ≤ a.CosineSimilarity

noncomputable instance : DecidableRel byScoreDesc :=
  fun _ _ => Classical.dec _

instance : IsTotal VectorRecord byScoreDesc :=
  ⟨fun a b => le_total b.CosineSimilarity a.CosineSimilarity⟩

instance : IsTrans VectorRecord byScoreDesc :=
  ⟨fun _ _ _ hab hbc => le_trans hbc hab⟩

/-- Embeds `getTopNVectorRecords` of `rag/rag.go`.  The library call
`sort.Slice(records, less)` is modelled by a comparison sort satisfying its
documented contract: the result is a permutation of the input sorted so that no
later element has a strictly larger score (the Go library does not guarantee
stability, so nothing below relies on the tie order of this model).  The Go
truncation `records[:max]` panics when `max` is negative (`len(records) < max`
having failed), modelled as `none`. -/
noncomputable def getTopNVectorRecords (records : List VectorRecord) (max : Int) :
    Option (List VectorRecord) :=
  let sorted := List.insertionSort byScoreDesc records
  if (sorted.length : Int) < max then some sorted
  else if 0 ≤ max then some (sorted.take max.toNat) else none

/-- Embeds `MemoryVectorStore.SearchTopNSimilarities` of `rag/rag.go`: run
`SearchSimilarities`, return `nil, err` on error (the error is in fact always
`nil`), otherwise the top-`max` records and a `nil` error. -/
noncomputable def SearchTopNSimilarities (mvs : Store) (q : VectorRecord) (limit : ℝ)
    (max : Int) : Option (List VectorRecord × Option String) :=
  (SearchSimilarities mvs q limit).bind fun res =>
    match res.2 with
    | some e => some ([], some e)
    | none => (getTopNVectorRecords res.1 max).map fun rs => (rs, none)

/-- A chat message as the tool-call loop of
`17-use-mcp-toolkit-with-tools-chain/main.go` distinguishes them: ordinary
role-tagged messages (system / user / assistant content) and tool-result
messages built by `openai.ToolMessage(text, toolCallID)`. -/
inductive Msg where
  | plain (role content : String)
  | toolMsg (content toolCallId : String)
deriving DecidableEq

/-- A tool-call request returned by the completion capability: correlation `ID`,
function name and the JSON argument string
(`toolCall.ID`, `toolCall.Function.Name`, `toolCall.Function.Arguments`). -/
structure ToolCall where
  id : String
  name : String
  arguments : String
deriving DecidableEq

/-- The `map[string]any` a successful `json.Unmarshal` produces from an argument
string; its values are opaque to the loop, which only forwards the map. -/
abbrev ArgMap := List (String × String)

/-- The argument value handed to `mcpClient.CallTool`: `none` is the Go `nil`
map, which is what `args` still holds after a failed `json.Unmarshal`. -/
abbrev Args := Option ArgMap

/-- The tool-execution loop body of `DetectToolThenCallIt`
(`17-use-mcp-toolkit-with-tools-chain/main.go`, the `for _, toolCall := range
detectedToolCalls` loop).  `parse` stands for `json.Unmarshal` of
`encoding/json` (returning `none` on malformed JSON, in which case `args` keeps
its `nil` zero value — the error is discarded by `_ =`), and `callTool` for
`mcpClient.CallTool` (returning the text of the response, per the external
tool-execution contract).  Returns the collected `toolMessages` and, for the
analysis, the trace of invocations actually dispatched to the capability. -/
def processBatch (parse : String → Option ArgMap)
    (callTool : String → Args → Except String String) :
    List ToolCall → List Msg × List (String × Args)
  | [] => ([], [])
  | c :: rest =>
    let args := parse c.arguments
    let res := processBatch parse callTool rest
    match callTool c.name args with
    | .error _ => (res.1, (c.name, args) :: res.2)
    | .ok text => (Msg.toolMsg text c.id :: res.1, (c.name, args) :: res.2)

/-- One invocation of the `DetectToolThenCallIt` closure: call the completion
capability on the accumulated messages (`complete` stands for
`dmrClient.Chat.Completions.New`; an `error` is the non-`nil` `err`, which the
code logs and answers with `return false`); with zero detected tool calls also
`return false`; otherwise execute the batch, append the collected tool messages
to the conversation, and `return true`. -/
def runPass (complete : List Msg → Except String (List ToolCall))
    (parse : String → Option ArgMap)
    (callTool : String → Args → Except String String)
    (messages : List Msg) : Bool × List Msg :=
  match complete messages with
  | .error _ => (false, messages)
  | .ok detectedToolCalls =>
    if detectedToolCalls.isEmpty then (false, messages)
    else
      (true, messages ++ (processBatch parse callTool detectedToolCalls).1)

/-- The driver loop of `main`:
`pass := 1; for DetectToolThenCallIt() { pass++; if pass > 2 { break } }`,
additionally counting how many times the completion capability is called inside
the loop.  Returns that count and the final conversation. -/
def toolLoopAux (complete : List Msg → Except String (List ToolCall))
    (parse : String → Option ArgMap)
    (callTool : String → Args → Except String String)
    (pass : Nat) (messages : List Msg) (callCount : Nat) : Nat × List Msg :=
  let res := runPass complete parse callTool messages
  if res.1 then
    if h : pass + 1 > 2 then (callCount + 1, res.2)
    else toolLoopAux complete parse callTool (pass + 1) res.2 (callCount + 1)
  else (callCount + 1, res.2)
termination_by 3 - pass
decreasing_by omega

/-- The driver loop of `main`, started as in the source with `pass := 1`. -/
def toolLoop (complete : List Msg → Except String (List ToolCall))
    (parse : String → Option ArgMap)
    (callTool : String → Args → Except String String)
    (messages : List Msg) : Nat × List Msg :=
  toolLoopAux complete parse callTool 1 messages 0

section VectorStoreLemmas

lemma dotProduct_of_le {v1 v2 : List ℝ} (h : v1.length ≤ v2.length) :
    dotProduct v1 v2 = some (dotProductVal v1 v2) := by
  simp [dotProduct, h]

lemma dotProduct_self (v : List ℝ) : dotProduct v v = some (dotProductVal v v) :=
  dotProduct_of_le le_rfl

lemma cosineSimilarity_eq_ite {v1 v2 : List ℝ} (h : v1.length ≤ v2.length) :
    CosineSimilarity v1 v2 =
      if Real.sqrt (dotProductVal v1 v1) ≤ 0 ∨ Real.sqrt (dotProductVal v2 v2) ≤ 0
      then some 0
      else some (dotProductVal v1 v2 /
        (Real.sqrt (dotProductVal v1 v1) * Real.sqrt (dotProductVal v2 v2))) := by
  rw [CosineSimilarity, dotProduct_of_le h, dotProduct_self, dotProduct_self]
  simp only [Option.some_bind]

lemma cosineSimilarity_isSome {v1 v2 : List ℝ} (h : v1.length ≤ v2.length) :
    ∃ c, CosineSimilarity v1 v2 = some c := by
  rw [cosineSimilarity_eq_ite h]
  split
  · exact ⟨0, rfl⟩
  · exact ⟨_, rfl⟩

end VectorStoreLemmas

/-- Claim C6: for every pair of vectors (within the totality domain of the
function, i.e. the second at least as long as the first, see C10) in which at
least one has zero norm — in particular the zero vector — `CosineSimilarity`
returns exactly `0.0` without dividing by zero; and whenever both norms are
positive it returns `dot(a,b) / (‖a‖ * ‖b‖)`, whose denominator is nonzero. -/
theorem cosine_zero_norm_guard (v1 v2 : List ℝ) (h : v1.length ≤ v2.length) :
    (Real.sqrt (dotProductVal v1 v1) = 0 ∨ Real.sqrt (dotProductVal v2 v2) = 0 →
      CosineSimilarity v1 v2 = some 0) ∧
    (0 < Real.sqrt (dotProductVal v1 v1) → 0 < Real.sqrt (dotProductVal v2 v2) →
      CosineSimilarity v1 v2 = some (dotProductVal v1 v2 /
        (Real.sqrt (dotProductVal v1 v1) * Real.sqrt (dotProductVal v2 v2))) ∧
      Real.sqrt (dotProductVal v1 v1) * Real.sqrt (dotProductVal v2 v2) ≠ 0) := by
  constructor
  · intro hz
    rw [cosineSimilarity_eq_ite h, if_pos (hz.imp le_of_eq le_of_eq)]
  · intro h1 h2
    have hz : ¬(Real.sqrt (dotProductVal v1 v1) ≤ 0 ∨ Real.sqrt (dotProductVal v2 v2) ≤ 0) := by
      push_neg
      exact ⟨h1, h2⟩
    exact ⟨by rw [cosineSimilarity_eq_ite h, if_neg hz], (mul_pos h1 h2).ne'⟩

/-- Witness for C6: the zero vector `[0]` against `[1]` satisfies the length
precondition and yields similarity exactly `0`. -/
theorem cosine_zero_norm_guard_witness :
    ([(0 : ℝ)].length ≤ [(1 : ℝ)].length) ∧ CosineSimilarity [(0 : ℝ)] [(1 : ℝ)] = some 0 := by
  have hz : dotProductVal [(0 : ℝ)] [(0 : ℝ)] = 0 := by
    simp [dotProductVal]
  exact ⟨by simp, (cosine_zero_norm_guard [(0 : ℝ)] [(1 : ℝ)] (by simp)).1
    (Or.inl (by rw [hz, Real.sqrt_zero]))⟩

/-- Claim C10: `CosineSimilarity` is total exactly on pairs whose second vector
is at least as long as the first; a query embedding strictly longer than a
stored record's embedding makes `SearchSimilarities` hit an out-of-range index
(a runtime panic, modelled as `none`), and `Save` performs no dimensionality
check that would prevent it; extra trailing entries of a longer second vector
are silently ignored by `dotProduct`. -/
theorem cosine_partiality :
    (∀ v1 v2 : List ℝ, v1.length ≤ v2.length → ∃ c, CosineSimilarity v1 v2 = some c) ∧
    CosineSimilarity [(1 : ℝ), 1] [(1 : ℝ)] = none ∧
    SearchSimilarities (Save "id1" [] ⟨"", "doc", [(1 : ℝ)], 0⟩).2 ⟨"", "", [(1 : ℝ), 1], 0⟩ 0 = none ∧
    (∀ v1 v2 : List ℝ, v1.length ≤ v2.length →
      dotProduct v1 v2 = dotProduct v1 (v2.take v1.length)) := by
  refine ⟨fun v1 v2 h => cosineSimilarity_isSome h, ?_, ?_, ?_⟩
  · simp [CosineSimilarity, dotProduct]
  · simp [SearchSimilarities, Save, mapInsert, searchAux, CosineSimilarity, dotProduct]
  · intro v1 v2 h
    have hlen : (v2.take v1.length).length = v1.length := by
      simp [List.length_take]
      omega
    rw [dotProduct_of_le h, dotProduct_of_le (le_of_eq hlen.symm)]
    have hval : dotProductVal v1 v2 = dotProductVal v1 (v2.take v1.length) := by
      unfold dotProductVal
      refine List.foldl_ext _ _ _ fun a i hi => ?_
      have hi' : i < v1.length := List.mem_range.mp hi
      simp only [List.getD_eq_getElem?_getD]
      rw [List.getElem?_take_of_lt hi']
    rw [hval]

/-- Witness for C10: the totality part at the pair `([0], [0])` and the
trailing-entries part at `([0], [0, 1])`. -/
theorem cosine_partiality_witness :
    (([(0 : ℝ)].length ≤ [(0 : ℝ)].length) ∧ ∃ c, CosineSimilarity [(0 : ℝ)] [(0 : ℝ)] = some c) ∧
    dotProduct [(0 : ℝ)] [(0 : ℝ), 1] = dotProduct [(0 : ℝ)] ([(0 : ℝ), 1].take [(0 : ℝ)].length) :=
  ⟨⟨le_rfl, cosine_partiality.1 _ _ le_rfl⟩,
    cosine_partiality.2.2.2 [(0 : ℝ)] [(0 : ℝ), 1] (by simp)⟩

lemma mapFind_mapInsert_self (st : Store) (k : String) (v : VectorRecord) :
    mapFind (mapInsert st k v) k = some v := by
  induction st with
  | nil => simp [mapInsert, mapFind]
  | cons hd tl ih =>
    obtain ⟨k', v'⟩ := hd
    by_cases h : k' = k <;> simp [mapInsert, mapFind, h, ih]

lemma mapFind_mapInsert_ne (st : Store) {k k' : String} (v : VectorRecord) (h : k ≠ k') :
    mapFind (mapInsert st k v) k' = mapFind st k' := by
  induction st with
  | nil => simp [mapInsert, mapFind, h]
  | cons hd tl ih =>
    obtain ⟨k0, v0⟩ := hd
    by_cases h0 : k0 = k <;> simp [mapInsert, mapFind, h0, h, ih]

lemma snd_mem_mapInsert (st : Store) (k : String) (v : VectorRecord) :
    v ∈ (mapInsert st k v).map Prod.snd := by
  induction st with
  | nil => simp [mapInsert]
  | cons hd tl ih =>
    obtain ⟨k', v'⟩ := hd
    by_cases h : k' = k <;> simp [mapInsert, h, ih]

/-- Claim C7: `Save` with an empty id stores the record under the freshly
generated identifier (non-empty, as a UUID string is) and returns it; with a
non-empty id it inserts or overwrites at that id and returns the record
unchanged; and two consecutive empty-id saves whose generated identifiers
differ (the generator never repeats) store under distinct ids, neither
overwriting the other. -/
theorem save_id_assignment (g1 g2 : String) (store : Store) (r1 r2 : VectorRecord) :
    (r1.Id = "" → g1 ≠ "" →
      (Save g1 store r1).1.1 = { r1 with Id := g1 } ∧
      (Save g1 store r1).1.1.Id ≠ "" ∧
      (Save g1 store r1).1.2 = none ∧
      mapFind (Save g1 store r1).2 g1 = some { r1 with Id := g1 }) ∧
    (r1.Id ≠ "" →
      (Save g1 store r1).1.1 = r1 ∧
      mapFind (Save g1 store r1).2 r1.Id = some r1) ∧
    (r1.Id = "" → r2.Id = "" → g1 ≠ g2 →
      mapFind (Save g2 (Save g1 store r1).2 r2).2 g1 = some { r1 with Id := g1 } ∧
      mapFind (Save g2 (Save g1 store r1).2 r2).2 g2 = some { r2 with Id := g2 }) := by
  refine ⟨fun h1 hg => ?_, fun h1 => ?_, fun h1 h2 hg => ?_⟩
  · have hsave : Save g1 store r1 =
        (({ r1 with Id := g1 }, none), mapInsert store g1 { r1 with Id := g1 }) := by
      simp [Save, h1]
    rw [hsave]
    exact ⟨rfl, hg, rfl, mapFind_mapInsert_self _ _ _⟩
  · have hsave : Save g1 store r1 = ((r1, none), mapInsert store r1.Id r1) := by
      simp [Save, h1]
    rw [hsave]
    exact ⟨rfl, mapFind_mapInsert_self _ _ _⟩
  · have hs1 : Save g1 store r1 =
        (({ r1 with Id := g1 }, none), mapInsert store g1 { r1 with Id := g1 }) := by
      simp [Save, h1]
    have hs2 : ∀ st : Store, Save g2 st r2 =
        (({ r2 with Id := g2 }, none), mapInsert st g2 { r2 with Id := g2 }) := by
      intro st
      simp [Save, h2]
    rw [hs1, hs2]
    constructor
    · rw [mapFind_mapInsert_ne _ _ (Ne.symm hg)]
      exact mapFind_mapInsert_self _ _ _
    · exact mapFind_mapInsert_self _ _ _

/-- Witness for C7: two consecutive saves of empty-id records with distinct
generated identifiers `"id-1"` and `"id-2"` into the empty store. -/
theorem save_id_assignment_witness :
    ("id-1" : String) ≠ "" ∧ ("id-1" : String) ≠ "id-2" ∧
    mapFind (Save "id-2" (Save "id-1" []
        ⟨"", "a", [(1 : ℝ)], 0⟩).2 ⟨"", "b", [(1 : ℝ)], 0⟩).2 "id-1" =
      some ⟨"id-1", "a", [(1 : ℝ)], 0⟩ ∧
    mapFind (Save "id-2" (Save "id-1" []
        ⟨"", "a", [(1 : ℝ)], 0⟩).2 ⟨"", "b", [(1 : ℝ)], 0⟩).2 "id-2" =
      some ⟨"id-2", "b", [(1 : ℝ)], 0⟩ := by
  have h := (save_id_assignment "id-1" "id-2" []
    ⟨"", "a", [(1 : ℝ)], 0⟩ ⟨"", "b", [(1 : ℝ)], 0⟩).2.2 rfl rfl (by decide)
  exact ⟨by decide, by decide, h.1, h.2⟩

/-- Claim C9: saving any record and then calling `GetAll` yields a stored record
whose `Prompt` and `Embedding` are identical to those of the saved record (the
score field is not compared). -/
theorem save_getAll_round_trip (g : String) (store : Store) (r : VectorRecord) :
    ∃ stored ∈ (GetAll (Save g store r).2).1,
      stored.Prompt = r.Prompt ∧ stored.Embedding = r.Embedding := by
  by_cases h : r.Id = ""
  · refine ⟨{ r with Id := g }, ?_, rfl, rfl⟩
    simp only [GetAll, Save, h, reduceIte]
    exact snd_mem_mapInsert _ _ _
  · refine ⟨r, ?_, rfl, rfl⟩
    simp only [GetAll, Save, h, reduceIte]
    exact snd_mem_mapInsert _ _ _

lemma searchAux_some (q : VectorRecord) (limit : ℝ) :
    ∀ store : Store, (∀ p ∈ store, q.Embedding.length ≤ p.2.Embedding.length) →
      ∃ rs, searchAux q limit store = some rs ∧
        (∀ r ∈ rs, limit ≤ r.CosineSimilarity) ∧
        ((∀ p ∈ store, ∀ d, CosineSimilarity q.Embedding p.2.Embedding = some d → d < limit) →
          rs = [])
  | [], _ => ⟨[], rfl, by simp, fun _ => rfl⟩
  | (k, v) :: rest, h => by
    obtain ⟨rs, hrs, hbd, hemp⟩ :=
      searchAux_some q limit rest fun p hp => h p (List.mem_cons_of_mem _ hp)
    obtain ⟨c, hc⟩ :=
      cosineSimilarity_isSome (h (k, v) (List.mem_cons_self _ _))
    by_cases hl : limit ≤ c
    · refine ⟨{ v with CosineSimilarity := c } :: rs, ?_, ?_, fun hall => ?_⟩
      · simp [searchAux, hc, hl, hrs]
      · intro r hr
        rcases List.mem_cons.mp hr with h' | h'
        · rw [h']
          exact hl
        · exact hbd r h'
      · exact absurd (hall (k, v) (List.mem_cons_self _ _) c hc) (not_lt.mpr hl)
    · refine ⟨rs, ?_, hbd, fun hall => ?_⟩
      · simp [searchAux, hc, hl, hrs]
      · exact hemp fun p hp d hd => hall p (List.mem_cons_of_mem _ hp) d hd

lemma getTopN_spec (records : List VectorRecord) (max : Int) (hmax : 0 ≤ max) :
    ∃ out, getTopNVectorRecords records max = some out ∧
      (out.length : Int) ≤ max ∧
      List.Sorted byScoreDesc out ∧
      (∀ r ∈ out, r ∈ records) ∧
      (records = [] → out = []) := by
  by_cases hlt : ((List.insertionSort byScoreDesc records).length : Int) < max
  · refine ⟨List.insertionSort byScoreDesc records,
      by simp only [getTopNVectorRecords]; rw [if_pos hlt], le_of_lt hlt,
      List.sorted_insertionSort byScoreDesc records, ?_, ?_⟩
    · intro r hr
      exact (List.mem_insertionSort _).mp hr
    · intro h
      rw [h]
      rfl
  · refine ⟨(List.insertionSort byScoreDesc records).take max.toNat,
      by simp only [getTopNVectorRecords]; rw [if_neg hlt, if_pos hmax], ?_, ?_, ?_, ?_⟩
    · have hle : ((List.insertionSort byScoreDesc records).take max.toNat).length ≤ max.toNat := by
        simp [List.length_take]
      calc (((List.insertionSort byScoreDesc records).take max.toNat).length : Int)
          ≤ (max.toNat : Int) := by exact_mod_cast hle
        _ = max := Int.toNat_of_nonneg hmax
    · exact List.Pairwise.sublist (List.take_sublist _ _)
        (List.sorted_insertionSort byScoreDesc records)
    · intro r hr
      exact (List.mem_insertionSort _).mp (List.mem_of_mem_take hr)
    · intro h
      rw [h]
      simp

/-- Claim C1: for every index state (whose stored embeddings are at least as
long as the query's, see C10) and every query record, `SearchTopNSimilarities`
returns a sequence of length at most `max`, sorted in descending score order,
every element scoring at least `minScore`, together with a nil error; and when
no stored record qualifies (in particular on the empty index) the sequence is
empty. -/
theorem searchTopN_len_sorted_minScore (store : Store) (q : VectorRecord) (limit : ℝ)
    (max : Int)
    (hdim : ∀ p ∈ store, q.Embedding.length ≤ p.2.Embedding.length)
    (hmax : 0 ≤ max) :
    ∃ out, SearchTopNSimilarities store q limit max = some (out, none) ∧
      (out.length : Int) ≤ max ∧
      List.Sorted byScoreDesc out ∧
      (∀ r ∈ out, limit ≤ r.CosineSimilarity) ∧
      ((∀ p ∈ store, ∀ d, CosineSimilarity q.Embedding p.2.Embedding = some d → d < limit) →
        out = []) := by
  obtain ⟨rs, hrs, hbd, hemp⟩ := searchAux_some q limit store hdim
  obtain ⟨out, hout, hlen, hsort, hmem, hnil⟩ := getTopN_spec rs max hmax
  refine ⟨out, ?_, hlen, hsort, fun r hr => hbd r (hmem r hr), fun hall => hnil (hemp hall)⟩
  simp [SearchTopNSimilarities, SearchSimilarities, hrs, hout]

/-- Witness for C1: the empty index with a concrete query, threshold `0.6` and
cap `2` returns the empty sequence with a nil error. -/
theorem searchTopN_len_sorted_minScore_witness :
    (∀ p ∈ ([] : Store),
      (⟨"", "", [(1 : ℝ)], 0⟩ : VectorRecord).Embedding.length ≤ p.2.Embedding.length) ∧
    ∃ out, SearchTopNSimilarities [] ⟨"", "", [(1 : ℝ)], 0⟩ 0.6 2 = some (out, none) ∧
      (out.length : Int) ≤ 2 ∧
      List.Sorted byScoreDesc out ∧
      (∀ r ∈ out, (0.6 : ℝ) ≤ r.CosineSimilarity) ∧
      ((∀ p ∈ ([] : Store), ∀ d,
          CosineSimilarity (⟨"", "", [(1 : ℝ)], 0⟩ : VectorRecord).Embedding p.2.Embedding =
            some d → d < 0.6) → out = []) :=
  ⟨by simp, searchTopN_len_sorted_minScore [] ⟨"", "", [(1 : ℝ)], 0⟩ 0.6 2 (by simp) (by norm_num)⟩

lemma processBatch_trace (parse : String → Option ArgMap)
    (callTool : String → Args → Except String String) :
    ∀ calls : List ToolCall,
      (processBatch parse callTool calls).2 = calls.map fun c => (c.name, parse c.arguments)
  | [] => rfl
  | c :: rest => by
    simp only [processBatch]
    cases hc : callTool c.name (parse c.arguments) <;>
      simp [hc, processBatch_trace parse callTool rest]

lemma processBatch_msgs (parse : String → Option ArgMap)
    (callTool : String → Args → Except String String) :
    ∀ calls : List ToolCall,
      (processBatch parse callTool calls).1 = calls.filterMap fun c =>
        match callTool c.name (parse c.arguments) with
        | .ok text => some (Msg.toolMsg text c.id)
        | .error _ => none
  | [] => rfl
  | c :: rest => by
    simp only [processBatch, List.filterMap_cons]
    cases hc : callTool c.name (parse c.arguments) <;>
      simp [hc, processBatch_msgs parse callTool rest]

/-- Claim C8: during one pass, the tool-execution capability is dispatched for
every call of the batch (a failing sibling does not stop the others), the
result messages are exactly one per call whose execution succeeded — each
tagged with the correlation id of the call it answers, a failed call producing
none — and `DetectToolThenCallIt` appends exactly those messages to the
conversation. -/
theorem toolResult_correlation (parse : String → Option ArgMap)
    (callTool : String → Args → Except String String) (calls : List ToolCall)
    (complete : List Msg → Except String (List ToolCall)) (messages : List Msg) :
    (processBatch parse callTool calls).2 =
      (calls.map fun c => (c.name, parse c.arguments)) ∧
    (processBatch parse callTool calls).1 =
      (calls.filterMap fun c =>
        match callTool c.name (parse c.arguments) with
        | .ok text => some (Msg.toolMsg text c.id)
        | .error _ => none) ∧
    (runPass complete parse callTool messages).2 = messages ++
      (match complete messages with
       | .error _ => []
       | .ok cs => if cs.isEmpty then [] else (processBatch parse callTool cs).1) := by
  refine ⟨processBatch_trace parse callTool calls, processBatch_msgs parse callTool calls, ?_⟩
  cases hc : complete messages with
  | error e => simp [runPass, hc]
  | ok cs =>
    by_cases he : cs.isEmpty <;> simp [runPass, hc, he]

/-- Stub for `json.Unmarshal` rejecting every argument string. -/
def parseNone : String → Option ArgMap := fun _ => none

/-- Stub tool-execution capability that always succeeds with text `"result"`. -/
def callToolOk : String → Args → Except String String := fun _ _ => .ok "result"

/-- Stub completion capability whose call always fails. -/
def completeFail : List Msg → Except String (List ToolCall) := fun _ => .error "boom"

/-- Stub completion capability that always answers with zero tool calls. -/
def completeNoCalls : List Msg → Except String (List ToolCall) := fun _ => .ok []

/-- Stub completion capability that requests one tool call on every pass. -/
def completeAlways : List Msg → Except String (List ToolCall) :=
  fun _ => .ok [⟨"call-1", "search", "q"⟩]

/-- A concrete initial conversation. -/
def msgs0 : List Msg := [Msg.plain "user" "hi"]

/-- Counterexample to claim C2: with a malformed argument string (the parser
rejects it) and a tool capability that succeeds, the call is not skipped — the
capability is invoked with the nil argument map and a result message is
produced for the call. -/
theorem malformed_json_not_skipped_cex :
    parseNone "not json" = none ∧
    processBatch parseNone callToolOk [⟨"call-1", "fetch", "not json"⟩] =
      ([Msg.toolMsg "result" "call-1"], [("fetch", (none : Args))]) :=
  ⟨rfl, rfl⟩

/-- Claim C2 as amended: a call whose argument string is malformed JSON is not
skipped; the parse failure is discarded and the call is still dispatched to the
tool-execution capability with the nil argument map, a result message is
produced for it exactly when that invocation succeeds, and the loop continues
with the remaining calls of the batch. -/
theorem malformed_json_dispatched_with_nil_args (parse : String → Option ArgMap)
    (callTool : String → Args → Except String String) (c : ToolCall)
    (rest : List ToolCall) (h : parse c.arguments = none) :
    (processBatch parse callTool (c :: rest)).2 =
      (c.name, (none : Args)) :: (processBatch parse callTool rest).2 ∧
    (∀ e, callTool c.name none = .error e →
      (processBatch parse callTool (c :: rest)).1 = (processBatch parse callTool rest).1) ∧
    (∀ text, callTool c.name none = .ok text →
      (processBatch parse callTool (c :: rest)).1 =
        Msg.toolMsg text c.id :: (processBatch parse callTool rest).1) := by
  refine ⟨?_, fun e he => ?_, fun text ht => ?_⟩ <;> simp only [processBatch, h]
  · cases hc : callTool c.name none <;> simp [hc]
  · simp [he]
  · simp [ht]

/-- Witness for the amended C2: a concrete batch headed by a malformed call. -/
theorem malformed_json_dispatched_with_nil_args_witness :
    parseNone "not json" = none ∧
    (processBatch parseNone callToolOk
        [⟨"call-a", "fetch", "not json"⟩, ⟨"call-b", "fetch", "x"⟩]).2 =
      ("fetch", (none : Args)) ::
        (processBatch parseNone callToolOk [⟨"call-b", "fetch", "x"⟩]).2 :=
  ⟨rfl, (malformed_json_dispatched_with_nil_args parseNone callToolOk
    ⟨"call-a", "fetch", "not json"⟩ [⟨"call-b", "fetch", "x"⟩] rfl).1⟩

lemma toolLoopAux_of_false {complete : List Msg → Except String (List ToolCall)}
    {parse : String → Option ArgMap} {callTool : String → Args → Except String String}
    {pass : Nat} {m : List Msg} {c : Nat}
    (h : (runPass complete parse callTool m).1 = false) :
    toolLoopAux complete parse callTool pass m c =
      (c + 1, (runPass complete parse callTool m).2) := by
  unfold toolLoopAux
  simp [h]

/-- Counterexample to claim C4: a failing completion call is absorbed into
normal loop termination — the pass answers `false` with the conversation
unchanged, exactly as a normal no-tool-calls pass does, and the whole driver
loop produces the very same outcome as with a completion capability that
succeeds with zero tool calls; no error value reaches the caller of the loop. -/
theorem completion_failure_absorbed_cex :
    runPass completeFail parseNone callToolOk msgs0 = (false, msgs0) ∧
    runPass completeFail parseNone callToolOk msgs0 =
      runPass completeNoCalls parseNone callToolOk msgs0 ∧
    toolLoop completeFail parseNone callToolOk msgs0 =
      toolLoop completeNoCalls parseNone callToolOk msgs0 := by
  refine ⟨rfl, rfl, ?_⟩
  have h1 : (runPass completeFail parseNone callToolOk msgs0).1 = false := rfl
  have h2 : (runPass completeNoCalls parseNone callToolOk msgs0).1 = false := rfl
  unfold toolLoop
  rw [toolLoopAux_of_false h1, toolLoopAux_of_false h2]
  rfl

/-- Claim C4 as amended: a failed completion-capability call is fatal to the
current pass — no tool is executed, the conversation is left unchanged, and the
loop terminates — but the error is only logged, not propagated: the pass
returns the same `false` as the normal no-tool-calls termination, so the caller
of the loop receives no error value and proceeds to the final completion. -/
theorem completion_failure_ends_pass (complete : List Msg → Except String (List ToolCall))
    (parse : String → Option ArgMap) (callTool : String → Args → Except String String)
    (messages : List Msg) (e : String) (h : complete messages = .error e) :
    runPass complete parse callTool messages = (false, messages) ∧
    toolLoop complete parse callTool messages = (1, messages) := by
  have hp : runPass complete parse callTool messages = (false, messages) := by
    simp [runPass, h]
  refine ⟨hp, ?_⟩
  unfold toolLoop
  rw [toolLoopAux_of_false (by rw [hp]), hp]

/-- Witness for the amended C4: the always-failing completion stub. -/
theorem completion_failure_ends_pass_witness :
    completeFail msgs0 = Except.error "boom" ∧
    toolLoop completeFail parseNone callToolOk msgs0 = (1, msgs0) :=
  ⟨rfl, (completion_failure_ends_pass completeFail parseNone callToolOk msgs0 "boom" rfl).2⟩

lemma toolLoopAux_pass_two (complete : List Msg → Except String (List ToolCall))
    (parse : String → Option ArgMap) (callTool : String → Args → Except String String)
    (m : List Msg) (c : Nat) :
    (toolLoopAux complete parse callTool 2 m c).1 = c + 1 := by
  unfold toolLoopAux
  by_cases hr : (runPass complete parse callTool m).1 <;> simp [hr]

lemma toolLoopAux_pass_one_le (complete : List Msg → Except String (List ToolCall))
    (parse : String → Option ArgMap) (callTool : String → Args → Except String String)
    (m : List Msg) (c : Nat) :
    (toolLoopAux complete parse callTool 1 m c).1 ≤ c + 2 := by
  unfold toolLoopAux
  by_cases hr : (runPass complete parse callTool m).1
  · simp only [hr, if_true, show ¬((1 : Nat) + 1 > 2) by norm_num, dite_false,
      reduceIte, reduceDIte]
    rw [toolLoopAux_pass_two]
  · simp [hr]

lemma runPass_true_of_always {complete : List Msg → Except String (List ToolCall)}
    (parse : String → Option ArgMap) (callTool : String → Args → Except String String)
    (m : List Msg) (h : ∀ ms, ∃ calls, complete ms = .ok calls ∧ calls ≠ []) :
    (runPass complete parse callTool m).1 = true := by
  obtain ⟨calls, hc, hne⟩ := h m
  simp [runPass, hc, List.isEmpty_iff, hne]

/-- Claim C5: for every completion capability the driver loop of `main` (pass
limit 2) calls the completion capability at most twice inside the loop and then
terminates; and with a capability that returns at least one tool call on every
request it performs exactly 2 request/execute cycles. -/
theorem toolLoop_bounded_passes (complete : List Msg → Except String (List ToolCall))
    (parse : String → Option ArgMap) (callTool : String → Args → Except String String)
    (messages : List Msg) :
    (toolLoop complete parse callTool messages).1 ≤ 2 ∧
    ((∀ ms, ∃ calls, complete ms = .ok calls ∧ calls ≠ []) →
      (toolLoop complete parse callTool messages).1 = 2) := by
  constructor
  · exact toolLoopAux_pass_one_le complete parse callTool messages 0
  · intro h
    unfold toolLoop toolLoopAux
    simp only [runPass_true_of_always parse callTool messages h, if_true,
      show ¬((1 : Nat) + 1 > 2) by norm_num, reduceIte, reduceDIte]
    rw [toolLoopAux_pass_two]

/-- Witness for C5: a stub completion capability that requests one tool call on
every pass makes the loop perform exactly two completion calls. -/
theorem toolLoop_bounded_passes_witness :
    (∀ ms, ∃ calls, completeAlways ms = Except.ok calls ∧ calls ≠ []) ∧
    (toolLoop completeAlways parseNone callToolOk msgs0).1 = 2 :=
  ⟨fun _ => ⟨[⟨"call-1", "search", "q"⟩], rfl, by simp⟩,
    (toolLoop_bounded_passes completeAlways parseNone callToolOk msgs0).2
      fun _ => ⟨[⟨"call-1", "search", "q"⟩], rfl, by simp⟩⟩
